import Mathlib

/-!
Shallow embedding of the two scripts under `.github/workflows` of the
annotation_workflow_template repository: `concat_metadata.py` (metadata
aggregation) and `update_pages.py` (modulation-plan chart construction).

Modelling conventions: pandas DataFrames are represented column-major as
lists of (column name, cell list) pairs; scalar cells are the `Cell` type;
code that can raise returns `Except String`; file reading/parsing and the
plotting / score-parsing libraries are collaborators at the boundary, so
tables arrive already parsed and chart output is the record/layout data
handed to the chart primitive.  Floating point positions are modelled over
`Rat`.
-/

/-- Lexicographic comparison of character lists by code point, the order
Python uses for strings. -/
def charListLe : List Char → List Char → Bool
  | [], _ => true
  | _ :: _, [] => false
  | a :: as, b :: bs =>
      if a.toNat < b.toNat then true
      else if b.toNat < a.toNat then false
      else charListLe as bs

/-- Model of `a <= b` on Python strings (code-point lexicographic). -/
def strLe (a b : String) : Bool := charListLe a.toList b.toList

/-- Model of `s.startswith(pre)` on Python strings. -/
def strStartsWith (s pre : String) : Bool := pre.toList.isPrefixOf s.toList

/-- Model of `s.endswith(post)` on Python strings. -/
def strEndsWith (s post : String) : Bool := post.toList.isSuffixOf s.toList

/-- Insert into a sorted list, before the first element it compares
less-or-equal to (keeps the insertion stable). -/
def insertBy {α : Type} (le : α → α → Bool) (a : α) : List α → List α
  | [] => [a]
  | b :: l => if le a b then a :: b :: l else b :: insertBy le a l

/-- Stable insertion sort with a boolean comparator; the sorting
collaborators (`sorted`, `DataFrame.sort_values`) are modelled with it. -/
def sortBy {α : Type} (le : α → α → Bool) : List α → List α
  | [] => []
  | a :: l => insertBy le a (sortBy le l)

namespace ConcatMeta

/-- A scalar cell of a DataFrame as manipulated by `concat_metadata.py`:
missing value (NA/NaN), string, Python bool, or integer. -/
inductive Cell where
  | null : Cell
  | str : String → Cell
  | bool : Bool → Cell
  | int : Int → Cell
deriving DecidableEq, Repr

/-- Digit sequence accepted by the Python `int` constructor once sign and
surrounding whitespace are gone: nonempty, all digits or underscores,
first and last a digit, no two adjacent underscores. -/
def pyDigitsOk (cs : List Char) : Bool :=
  (!cs.isEmpty) &&
  cs.all (fun c => c.isDigit || c == '_') &&
  (match cs.head? with | some c => c.isDigit | none => false) &&
  (match cs.getLast? with | some c => c.isDigit | none => false) &&
  (cs.zip cs.tail).all (fun p => !(p.1 == '_' && p.2 == '_'))

/-- Numeric value of a digit sequence, underscores skipped. -/
def pyDigitsVal (cs : List Char) : Nat :=
  (cs.filter (fun c => c.isDigit)).foldl (fun n c => 10 * n + (c.toNat - 48)) 0

/-- Model of `int(s)` for a Python string: strip whitespace, optional sign, digit
sequence; `none` models the `ValueError` that `int2bool` catches. -/
def pyStrToInt? (s : String) : Option Int :=
  let t := ((s.toList.dropWhile Char.isWhitespace).reverse.dropWhile Char.isWhitespace).reverse
  match t with
  | '+' :: rest => if pyDigitsOk rest then some (pyDigitsVal rest) else none
  | '-' :: rest => if pyDigitsOk rest then some (-(pyDigitsVal rest : Int)) else none
  | rest => if pyDigitsOk rest then some (pyDigitsVal rest) else none

/-- Model of `int(x)` on the cell values that can reach `int2bool`; `none` models an
exception (caught by the `except` clause of `int2bool`). -/
def pyIntOfCell? : Cell → Option Int
  | .int n => some n
  | .bool b => some (if b then 1 else 0)
  | .str s => pyStrToInt? s
  | .null => none

/-- Model of `s.lower()`, modelled characterwise (ASCII case folding). -/
def strLower (s : String) : String := String.mk (s.toList.map Char.toLower)

/-- The four boolean tokens `int2bool` recognises case-insensitively. -/
def boolTokens : List String := ["t", "true", "f", "false"]

/-- First guard of `int2bool`: a string whose lowercase form is a token. -/
def isBoolTokenStr : Cell → Bool
  | .str s => boolTokens.contains (strLower s)
  | _ => false

/-- Truth value assigned to a recognised boolean token. -/
def boolTokenValue : Cell → Bool
  | .str s => strLower s == "t" || strLower s == "true"
  | _ => false

/-- Model of `int2bool` (concat_metadata.py lines 40-46): tokens t/true/f/false in
any case map to a bool; otherwise `bool(int(s))` if the conversion
succeeds; otherwise the value is returned unchanged.  Total, mirroring the
catch-all `except`. -/
def int2bool (v : Cell) : Cell :=
  if isBoolTokenStr v then .bool (boolTokenValue v)
  else
    match pyIntOfCell? v with
    | some n => .bool (n != 0)
    | none => v

/-- Model of `os.path.join(a, b)` on POSIX, two-argument case. -/
def posixJoin (a b : String) : String :=
  if strStartsWith b "/" then b
  else if a == "" || strEndsWith a "/" then a ++ b
  else a ++ "/" ++ b

/-- Python substring test `sub in s`. -/
def containsSubstr (s sub : String) : Bool := decide (sub.toList <:+: s.toList)

/-- A DataFrame, column-major: column names paired with their cells. -/
structure DF where
  cols : List (String × List Cell)
deriving DecidableEq, Repr

def DF.names (d : DF) : List String := d.cols.map (fun p => p.1)

def DF.lookupCol (d : DF) (c : String) : Option (List Cell) :=
  (d.cols.find? (fun p => p.1 == c)).map (fun p => p.2)

def DF.nRows (d : DF) : Nat :=
  match d.cols with
  | [] => 0
  | p :: _ => p.2.length

/-- The fixed list of boolean-typed metadata columns. -/
def BOOLEAN_COLUMNS : List String := ["has_drumset"]

/-- Model of `pd.read_csv(tsv_path, sep=tab, dtype=string, converters=...)`: cells
of the fixed boolean columns go through `int2bool`; the raw TSV parse is a
collaborator, so the input already is a `DF` of string/NA cells. -/
def loadTable (d : DF) : DF :=
  ⟨d.cols.map (fun p =>
    if BOOLEAN_COLUMNS.contains p.1 then (p.1, p.2.map int2bool) else p)⟩

/-- The concatenated DataFrame: outer index level (the corpus of each row,
`keys=` of `pd.concat`) plus the columns. The inner level (original row
number) is dropped by `droplevel(1)` and never inspected, so it is not
tracked. -/
structure CDF where
  corpus : List String
  cols : List (String × List Cell)
deriving DecidableEq, Repr

def CDF.names (t : CDF) : List String := t.cols.map (fun p => p.1)

def CDF.lookupCol (t : CDF) (c : String) : Option (List Cell) :=
  (t.cols.find? (fun p => p.1 == c)).map (fun p => p.2)

/-- Model of `concatenated.loc[:, c] = vs`. -/
def CDF.setCol (t : CDF) (c : String) (vs : List Cell) : CDF :=
  ⟨t.corpus, t.cols.map (fun p => if p.1 == c then (c, vs) else p)⟩

/-- Union of the column lists in order of first appearance
(`pd.concat` with the default `sort=False`). -/
def unionColumns (ds : List DF) : List String :=
  ds.foldl (fun acc d => acc ++ (d.names.filter (fun c => !acc.contains c))) []

/-- Model of `pd.concat(dfs, keys=keys)`: rows stacked under their corpus key,
columns the union, cells of absent columns NA.  The alignment
`AssertionError` of line 62 cannot arise here because every table read by
`read_csv` has a one-level range index. -/
def pdConcat (kts : List (String × DF)) : CDF :=
  { corpus := kts.flatMap (fun p => List.replicate p.2.nRows p.1)
  , cols := (unionColumns (kts.map (fun p => p.2))).map
      (fun c => (c, kts.flatMap (fun p =>
        (p.2.lookupCol c).getD (List.replicate p.2.nRows Cell.null)))) }

/-- Message of the `TypeError` raised by `os.path.join` on a non-string. -/
def typeErrorMsg : String := "TypeError: join argument must be str, not float"

/-- Message of the `ValueError` of concat_metadata.py line 69. -/
def relPathColErrorMsg : String :=
  "Metadata is expected to come with a column called subdirectory or (previously) rel_paths."

/-- Message of the `ValueError` of concat_metadata.py line 92. -/
def fnameColErrorMsg : String :=
  "Metadata is expected to come with a column called fname or (previously) fnames."

/-- Model of `os.path.join(corpus, cell)` for one cell; a non-string cell (e.g. NA)
makes the join raise a `TypeError`. -/
def joinCellE (corpus : String) (c : Cell) : Except String Cell :=
  match c with
  | .str s => .ok (.str (posixJoin corpus s))
  | _ => .error typeErrorMsg

/-- Lines 70-71 / 73-74: rebuild a path column by joining each row's
corpus (outer index level) in front of the current value. -/
def rewritePathCol (t : CDF) (c : String) : Except String CDF :=
  match t.lookupCol c with
  | none => .ok t
  | some vs => do
      let ws ← (t.corpus.zip vs).mapM (fun p => joinCellE p.1 p.2)
      .ok (t.setCol c ws)

/-- Rewriting a cell column by prepending each row's corpus with
`os.path.join` (the list form of lines 70 and 73). -/
def joinedCol (corpus : List String) (vs : List Cell) : List Cell :=
  (corpus.zip vs).map (fun p =>
    match p.2 with
    | Cell.str s => Cell.str (posixJoin p.1 s)
    | x => x)

/-- Well-formedness of one (corpus, cell) pair of a relative-path column:
the corpus name is a plain directory name and the cell a relative path,
the situation in which `os.path.join` prepends the corpus exactly once. -/
def relCellOk (p : String × Cell) : Bool :=
  (!(p.1 == "")) && (!(strEndsWith p.1 "/")) &&
  (match p.2 with
   | Cell.str s => !(strStartsWith s "/")
   | _ => false)

/-- Model of `sorted(folders)` of line 51. -/
def sortByName (fs : List (String × Option DF)) : List (String × Option DF) :=
  sortBy (fun a b => strLe a.1 b.1) fs

/-- Lines 49-55: the immediate child directories that contain a
`metadata.tsv`, in sorted order, each file loaded with the boolean
converters.  The filesystem is modelled as (subdirectory name, optional
parsed metadata file). -/
def foundTables (fs : List (String × Option DF)) : List (String × DF) :=
  (sortByName fs).filterMap (fun p => p.2.map (fun d => (p.1, loadTable d)))

/-- Model of `pd.DataFrame()` returned on line 57. -/
def emptyCDF : CDF := ⟨[], []⟩

/-- The `concatenated` frame of line 61, before the path rewrites. -/
def concatRaw (fs : List (String × Option DF)) : CDF := pdConcat (foundTables fs)

/-- Model of `concat_metadata(path)` (lines 48-77): collect per-directory metadata
files, return an empty frame if none, else concatenate keyed by
subdirectory, require a relative-path column, prefix its values (and those
of a legacy `rel_path` column) with the owning subdirectory. -/
def concat_metadata (fs : List (String × Option DF)) : Except String CDF :=
  if (foundTables fs).isEmpty then .ok emptyCDF
  else
    match ["subdirectory", "rel_paths"].find? (fun c => (concatRaw fs).names.contains c) with
    | none => .error relPathColErrorMsg
    | some relcol => do
        let t1 ← rewritePathCol (concatRaw fs) relcol
        let t2 ← if t1.names.contains "rel_path" then rewritePathCol t1 "rel_path" else pure t1
        .ok t2

/-- Model of `Series.astype(boolean).astype(Int64)` on one cell: NA stays NA, bools
become 0/1; a value that is not bool-like raises the `TypeError` caught
and re-raised on lines 151-156. -/
def astypeBoolInt : Cell → Except String Cell
  | .null => .ok .null
  | .bool b => .ok (.int (if b then 1 else 0))
  | .int n => if n == 0 || n == 1 then .ok (.int n) else .error "TypeError: Need to pass bool-like values"
  | .str _ => .error "TypeError: Need to pass bool-like values"

/-- Model of `Series.isna().all()`. -/
def allNull (vs : List Cell) : Bool := vs.all (fun c => c == Cell.null)

/-- Model of `convert_booleans(df, bool_columns)` (lines 127-158): the listed
columns that are present and not entirely null are re-encoded through
`astype(boolean).astype(Int64)`; everything else is untouched.  The
Python function first takes `df.copy()` and mutates only the copy, so the
embedding is a pure function of the input columns. -/
def convert_booleans (cols : List (String × List Cell)) (bool_columns : List String) :
    Except String (List (String × List Cell)) :=
  let present := bool_columns.filter (fun b => (cols.map (fun p => p.1)).contains b)
  if present.isEmpty then .ok cols
  else cols.mapM (fun p =>
    if present.contains p.1 then
      if allNull p.2 then .ok p
      else do
        let ws ← p.2.mapM astypeBoolInt
        .ok (p.1, ws)
    else .ok p)

/-- The display columns selected for the Markdown overview, post-rename. -/
def displayTargets : List String := ["file_name", "measures", "labels", "standard"]

/-- The `rename4markdown` mapping of lines 93-98, applied to one name. -/
def renameFor (fnameCol : String) (c : String) : String :=
  if c == fnameCol then "file_name"
  else if c == "last_mn" then "measures"
  else if c == "label_count" then "labels"
  else if c == "harmony_version" then "standard"
  else c

/-- Message of the pandas `KeyError` raised when selected display columns
are absent. -/
def keyErrorMsg (missing : List String) : String :=
  "KeyError: " ++ String.join (missing.intersperse ", ") ++ " not in index"

/-- Stringification used by the Markdown table writer after `fillna`. -/
def cellText : Cell → String
  | .null => ""
  | .str s => s
  | .bool b => if b then "True" else "False"
  | .int n => toString n

/-- Row positions belonging to one corpus group. -/
def rowIdxs (t : CDF) (g : String) : List Nat :=
  (List.range t.corpus.length).filter (fun i => t.corpus.getD i "" == g)

/-- Model of `groupby(level=0)` group keys: sorted unique corpus names. -/
def groupKeys (t : CDF) : List String :=
  (sortBy strLe t.corpus).dedup

/-- One Markdown table row. -/
def mdRow (cells : List String) : String :=
  "|" ++ String.join (cells.intersperse "|") ++ "|\n"

/-- Model of `df2md` for the rows of one corpus group, restricted to the selected
columns. -/
def mdTableFor (t : CDF) (sel : List String) (g : String) : String :=
  mdRow sel ++
  String.join ((rowIdxs t g).map (fun i =>
    mdRow (sel.map (fun c => ((t.lookupCol c).bind (fun vs => vs.get? i)).elim "" cellText))))

/-- The frame after `rename(columns=rename4markdown)` of line 99. -/
def renamedCDF (t : CDF) (fnameCol : String) : CDF :=
  ⟨t.corpus, t.cols.map (fun p => (renameFor fnameCol p.1, p.2))⟩

/-- The selected display columns absent from the renamed frame. -/
def missingDisplay (t : CDF) (fnameCol : String) : List String :=
  displayTargets.filter (fun c => !(renamedCDF t fnameCol).names.contains c)

/-- Model of `metadata2markdown(concatenated)` (lines 88-105): require a file-name
column, rename to display labels, select the display columns (a pandas
`KeyError` lists those absent), and emit one section per corpus group. -/
def metadata2markdown (t : CDF) : Except String String := do
  let fnameCol ← match ["fname", "fnames"].find? (fun c => t.names.contains c) with
    | none => Except.error fnameColErrorMsg
    | some c => Except.ok c
  if !(missingDisplay t fnameCol).isEmpty then .error (keyErrorMsg (missingDisplay t fnameCol))
  else
    .ok ("## Overview" ++ String.join ((groupKeys (renamedCDF t fnameCol)).map (fun g =>
      "\n\n### " ++ g ++ "\n\n" ++ mdTableFor (renamedCDF t fnameCol) displayTargets g)))

/-- Marker line that truncates an existing README. -/
def overviewMarker : String := "# Overview"

def lineHasOverview (l : String) : Bool := containsSubstr l overviewMarker

/-- The for/else loop of `write_md` (lines 117-124): copy lines until one
contains the marker, then write the new overview; if no line contains it
(including the fresh-file case where `lines` is empty), a blank separator
precedes the overview. -/
def writeLoop (md : String) : List String → String
  | [] => "\n\n" ++ md
  | l :: rest => if lineHasOverview l then md else l ++ writeLoop md rest

/-- Content written by `write_md(md_str, md_path)`; `existing` is the line
list of an existing file (`readlines`, newlines kept), `none` when the
file does not exist. -/
def write_md_content (existing : Option (List String)) (md : String) : String :=
  match existing with
  | some lines => writeLoop md lines
  | none => writeLoop md []

/-- Observable outcome of `main(args)`: which output files were written
and whether the no-metadata message was printed. -/
structure MainOutcome where
  writes : List String
  reportedNoMetadata : Bool
deriving DecidableEq, Repr

/-- Model of `main(args)` (lines 167-176): concatenate; if the result has no rows,
print the no-metadata message and return without writing; otherwise write
the TSV (after `convert_booleans`) and the README.  Errors abort the run
(a failure between the two writes leaves the TSV behind; the model only
reports the completed-run write list). -/
def main_run (fs : List (String × Option DF)) : Except String MainOutcome := do
  let concatenated ← concat_metadata fs
  if concatenated.corpus.length == 0 then
    .ok ⟨[], true⟩
  else do
    let _ ← convert_booleans concatenated.cols BOOLEAN_COLUMNS
    let _ ← metadata2markdown concatenated
    .ok ⟨["concatenated_metadata.tsv", "README.md"], false⟩

end ConcatMeta

namespace UpdatePages

/-- Value of the task/axis column of a Gantt record: the numeric
pitch-class columns hold integers, free-text columns (and the note names
substituted by the global-key transposition) hold strings. -/
inductive TaskVal where
  | num : Int → TaskVal
  | str : String → TaskVal
deriving DecidableEq, Repr

/-- One interval record of the `make_gantt_data` table, restricted to the
fields `create_modulation_plan` touches: Start, Finish, Resource and the
selected task column. -/
structure GRecord where
  start : Rat
  finish : Rat
  resource : String
  task : TaskVal
deriving DecidableEq, Repr

/-- Numeric reading of a task value.  pandas raises on arithmetic over a
mixed column, so all theorems about the numeric branches assume `allNum`;
the 0 returned for a string is never reached under that assumption. -/
def taskInt : TaskVal → Int
  | .num n => n
  | .str _ => 0

def TaskVal.isNum : TaskVal → Bool
  | .num _ => true
  | .str _ => false

/-- Every record of the column holds a number. -/
def allNum (data : List GRecord) : Bool := data.all (fun r => r.task.isNum)

/-- Model of `s.upper()`, modelled characterwise (ASCII case folding). -/
def strUpper (s : String) : String := String.mk (s.toList.map Char.toUpper)

/-- String key used by the free-text branch
(`key=lambda S: S.str.upper()`); numbers never reach it. -/
def upperKey (t : TaskVal) : String :=
  match t with
  | .str s => strUpper s
  | .num n => toString n

/-- Model of `sort_values(task_column, ascending=False)` on a numeric column. -/
def sortDescNum (l : List GRecord) : List GRecord :=
  sortBy (fun a b => decide (taskInt b.task ≤ taskInt a.task)) l

/-- Model of `sort_values(task_column, ascending=False, key=...upper())`. -/
def sortDescStr (l : List GRecord) : List GRecord :=
  sortBy (fun a b => strLe (upperKey b.task) (upperKey a.task)) l

/-- Zero-length placeholder record synthesised for a missing axis value
(lines 78-83). -/
def placeholderRec (m : Int) : GRecord := ⟨0, 0, "local", .num m⟩

/-- The integers of `range(mi, ma)`. -/
def intRange (mi ma : Int) : List Int :=
  (List.range (ma - mi).toNat).map (fun (i : Nat) => mi + (i : Int))

/-- The numeric column `data[task_column]`. -/
def taskVals (data : List GRecord) : List Int := data.map (fun r => taskInt r.task)

/-- Lines 74-77: the axis values missing from the clamped range present in
the data. -/
def missingVals (data : List GRecord) : List Int :=
  match (taskVals data).min?, (taskVals data).max? with
  | some vmin, some vmax =>
      (intRange (min 0 vmin) vmax).filter (fun m => !(taskVals data).contains m)
  | _, _ => []

/-- Gap-filling branch for a numeric axis (lines 73-84): returns `none`
for an empty table, where `min()` yields NaN and `range` raises. -/
def fillNumeric (data : List GRecord) : Option (List GRecord) :=
  match data with
  | [] => none
  | _ => some (sortDescNum (data ++ (missingVals data).map placeholderRec))

/-- The tonal conversions imported from the external ms3 library
(`name2pc`, `name2fifths`, `midi2name`, `fifths2name`); collaborators, so
the embedding is parameterised over them. -/
structure TonalOps where
  name2pc : String → Int
  name2fifths : String → Int
  midi2name : Int → String
  fifths2name : Int → String

/-- Lines 91-98 applied to one task value: shift by the offset derived
from the global key, then render the shifted value as a note name. -/
def transposeTask (ops : TonalOps) (task_column : String) (k : String) (t : TaskVal) : TaskVal :=
  if task_column == "fifths" then .str (ops.fifths2name (taskInt t + ops.name2fifths k))
  else if task_column == "semitones" then .str (ops.midi2name (taskInt t + ops.name2pc k))
  else t

/-- A vertical phrase-boundary line (lines 115-121): fixed black thin
long-dash style, spanning y 0..20 at the given x position. -/
structure Shape where
  x0 : Rat
  y0 : Rat
  x1 : Rat
  y1 : Rat
deriving DecidableEq, Repr

/-- Fixed resource colors of lines 64-66. -/
def KEY_COLORS : List (String × String) :=
  [("applied", "rgb(228,26,28)"),
   ("local", "rgb(55,126,184)"),
   ("tonic of adjacent applied chord(s)", "rgb(77,175,74)")]

def Y_AXIS : String := "Tonicized keys"

/-- The chart description handed to the plotting primitive `create_gantt`:
records, title, axis titles, marker shapes and the color mapping.  The
figure object itself belongs to the plotting library. -/
structure ChartSpec where
  records : List GRecord
  title : String
  xTitle : String
  yTitle : String
  shapes : Option (List Shape)
  colors : List (String × String)
deriving DecidableEq, Repr

/-- Model of `create_modulation_plan` (lines 70-186).  `none` models the crash of
the numeric fill branch on an empty table.  The unused `cadences`
parameter (dead code) is omitted. -/
def create_modulation_plan (ops : TonalOps) (data : List GRecord)
    (task_column : String := "semitones") (sort_and_fill : Bool := true)
    (title : String := "Modulation plan") (globalkey : Option String := none)
    (phraseends : Option (List Rat) := none)
    (colors : Option (List (String × String)) := none) : Option ChartSpec := do
  let data1 ←
    if sort_and_fill then
      if task_column == "semitones" || task_column == "fifths" then
        fillNumeric data
      else
        some (sortDescStr data)
    else
      some data
  let (title1, data2) :=
    match globalkey with
    | none => (title, data1)
    | some k =>
        (title ++ " (" ++ k ++ ")",
         if task_column == "fifths" || task_column == "semitones" then
           data1.map (fun r : GRecord => { r with task := transposeTask ops task_column k r.task })
         else data1)
  let ytitle :=
    if task_column == "semitones" || task_column == "fifths" then
      Y_AXIS ++ " (" ++ task_column ++ ")"
    else Y_AXIS
  some
    { records := data2
    , title := title1
    , xTitle := "Measures"
    , yTitle := ytitle
    , shapes := phraseends.map (fun ps => ps.map (fun p => (⟨p, 0, p, 20⟩ : Shape)))
    , colors := colors.getD KEY_COLORS }

/-- One row of the expanded annotation table used by `get_phraseends`:
measure number, onset within the measure, time signature (already read as
a fraction; the string-to-fraction parse is a collaborator), the phrase
marker, and the two possible position columns. -/
structure ARow where
  mn : Rat
  mn_onset : Rat
  timesig : Rat
  phraseend : String
  mn_fraction : Rat
  quarterbeats : Rat
deriving DecidableEq, Repr

/-- The annotation table plus the presence flag of its `mn_fraction`
column (`mn_fraction in at.columns`). -/
structure ATable where
  rows : List ARow
  hasMnFraction : Bool
deriving DecidableEq, Repr

/-- Position column selector passed as `column` to `get_phraseends`. -/
inductive PosCol where
  | mn_fraction : PosCol
  | quarterbeats : PosCol
deriving DecidableEq, Repr

/-- The three phrase-end markers of line 282: a double backslash (the raw
Python string of two backslashes), a closing brace, and a closing brace
followed by an opening brace. -/
def phraseendTokens : List String := ["\\\\", "\x7d", "\x7d\x7b"]

/-- Line 280: `at.mn + at.mn_onset.astype(float) / at.timesig.map(frac).astype(float)`
(float arithmetic modelled over the rationals). -/
def computeMnFraction (r : ARow) : Rat := r.mn + r.mn_onset / r.timesig

def posRead (col : PosCol) (r : ARow) : Rat :=
  match col with
  | .mn_fraction => r.mn_fraction
  | .quarterbeats => r.quarterbeats

/-- Model of `get_phraseends(at, column)` (lines 276-282): when the requested
column is `mn_fraction` and absent, first compute it for every row; then
return the position column of the rows whose `phraseend` is one of the
three tokens, in table order. -/
def get_phraseends (tbl : ATable) (col : PosCol := .mn_fraction) : List Rat :=
  let rows :=
    match col with
    | .mn_fraction =>
        if tbl.hasMnFraction then tbl.rows
        else tbl.rows.map (fun r : ARow => { r with mn_fraction := computeMnFraction r })
    | .quarterbeats => tbl.rows
  (rows.filter (fun r => phraseendTokens.contains r.phraseend)).map (posRead col)

end UpdatePages

open ConcatMeta UpdatePages

/-- Dummy instantiation of the external tonal conversions, agreeing with
the real ms3 functions on the values used by concrete examples
(`name2pc C = 0`, `midi2name 0 = C`). -/
def trivOps : TonalOps := ⟨fun _ => 0, fun _ => 0, fun _ => "C", fun _ => "C"⟩

/-- Concrete two-corpus filesystem used by concrete instantiations. -/
def fsC5 : List (String × Option DF) :=
  [("berlioz", some ⟨[("subdirectory", [Cell.str "MS3"]), ("fname", [Cell.str "f1"])]⟩),
   ("abc", some ⟨[("subdirectory", [Cell.str "MS3"]), ("fname", [Cell.str "f2"])]⟩)]

lemma insertBy_perm {α : Type} (le : α → α → Bool) (a : α) :
    ∀ l : List α, (insertBy le a l).Perm (a :: l) := by
  intro l
  induction l with
  | nil => exact List.Perm.refl _
  | cons b l ih =>
    by_cases h : le a b = true
    · simp only [insertBy, if_pos h]
      exact List.Perm.refl _
    · simp only [insertBy, if_neg h]
      exact (ih.cons b).trans (List.Perm.swap a b l)

lemma sortBy_perm {α : Type} (le : α → α → Bool) :
    ∀ l : List α, (sortBy le l).Perm l := by
  intro l
  induction l with
  | nil => exact List.Perm.refl _
  | cons a l ih =>
    exact (insertBy_perm le a (sortBy le l)).trans (ih.cons a)

lemma pairwise_insertBy {α : Type} (le : α → α → Bool)
    (htrans : ∀ x y z, le x y = true → le y z = true → le x z = true)
    (htot : ∀ x y, le x y = true ∨ le y x = true) (a : α) :
    ∀ l : List α, l.Pairwise (fun x y => le x y = true) →
      (insertBy le a l).Pairwise (fun x y => le x y = true) := by
  intro l
  induction l with
  | nil => intro _; simp [insertBy]
  | cons b l ih =>
    intro hp
    rcases List.pairwise_cons.mp hp with ⟨hb, hl⟩
    by_cases h : le a b = true
    · simp only [insertBy, if_pos h]
      refine List.pairwise_cons.mpr ⟨?_, hp⟩
      intro x hx
      rcases List.mem_cons.mp hx with rfl | hxl
      · exact h
      · exact htrans a b x h (hb x hxl)
    · simp only [insertBy, if_neg h]
      refine List.pairwise_cons.mpr ⟨?_, ih hl⟩
      intro x hx
      rcases List.mem_cons.mp ((insertBy_perm le a l).mem_iff.mp hx) with rfl | hxl
      · rcases htot b x with hbx | hxb
        · exact hbx
        · exact absurd hxb h
      · exact hb x hxl

lemma pairwise_sortBy {α : Type} (le : α → α → Bool)
    (htrans : ∀ x y z, le x y = true → le y z = true → le x z = true)
    (htot : ∀ x y, le x y = true ∨ le y x = true) :
    ∀ l : List α, (sortBy le l).Pairwise (fun x y => le x y = true) := by
  intro l
  induction l with
  | nil => simp [sortBy]
  | cons a l ih =>
    exact pairwise_insertBy le htrans htot a (sortBy le l) ih

lemma strJoin_cons (s : String) (l : List String) :
    String.join (s :: l) = s ++ String.join l := by
  simp [String.join_eq]
  rfl

lemma writeLoop_no_marker (md : String) : ∀ lines : List String,
    (∀ l ∈ lines, lineHasOverview l = false) →
    writeLoop md lines = String.join lines ++ "\n\n" ++ md := by
  intro lines
  induction lines with
  | nil => intro _; rfl
  | cons a rest ih =>
    intro h
    have ha : lineHasOverview a = false := h a (List.mem_cons_self a rest)
    have ih2 := ih (fun l hl => h l (List.mem_cons_of_mem a hl))
    simp [writeLoop, ha, strJoin_cons, ih2, String.append_assoc]

lemma writeLoop_marker (md : String) : ∀ lines : List String,
    (∃ l ∈ lines, lineHasOverview l = true) →
    writeLoop md lines = String.join (lines.takeWhile (fun l => !lineHasOverview l)) ++ md := by
  intro lines
  induction lines with
  | nil =>
    rintro ⟨l, hl, _⟩
    simp at hl
  | cons a rest ih =>
    rintro ⟨l, hl, hmark⟩
    by_cases ha : lineHasOverview a
    · simp [writeLoop, ha, List.takeWhile_cons]
      rfl
    · have ha2 : lineHasOverview a = false := by simpa using ha
      have hrest : ∃ x ∈ rest, lineHasOverview x = true := by
        rcases List.mem_cons.mp hl with rfl | hmem
        · exact absurd hmark (by simp [ha2])
        · exact ⟨l, hmem, hmark⟩
      simp [writeLoop, ha2, List.takeWhile_cons, strJoin_cons, ih hrest, String.append_assoc]

/-- C7: for an existing README whose lines include one containing the
marker `# Overview`, `write_md` keeps exactly the lines strictly before
the first such line, unchanged and in order, followed directly by the new
overview string; with no marker line the whole content is kept and the
overview appended after a blank separator; a missing file likewise gets
the separator plus the overview. -/
theorem write_md_overview_replacement (lines : List String) (md : String) :
    ((∃ l ∈ lines, lineHasOverview l = true) →
      write_md_content (some lines) md =
        String.join (lines.takeWhile (fun l => !lineHasOverview l)) ++ md) ∧
    ((∀ l ∈ lines, lineHasOverview l = false) →
      write_md_content (some lines) md = String.join lines ++ "\n\n" ++ md) ∧
    write_md_content none md = "\n\n" ++ md :=
  ⟨fun h => writeLoop_marker md lines h, fun h => writeLoop_no_marker md lines h, rfl⟩

theorem write_md_overview_replacement_witness :
    write_md_content (some ["intro\n", "text # Overview here\n", "old\n"]) "NEW" =
      "intro\n" ++ "NEW" ∧
    write_md_content (some ["intro\n"]) "NEW" = "intro\n" ++ "\n\n" ++ "NEW" := by
  constructor
  · exact ((write_md_overview_replacement ["intro\n", "text # Overview here\n", "old\n"]
      "NEW").1 (by decide)).trans (by decide)
  · exact ((write_md_overview_replacement ["intro\n"] "NEW").2.1 (by decide)).trans (by decide)

/-- C6: `int2bool` maps strings whose lowercase form is t/true to True and
f/false to False; any other input is converted through `int` and, when
that succeeds, the truth value of the integer is returned; when the
conversion fails the input comes back unchanged.  The function is total
(the final case returns the value), so it never raises. -/
theorem int2bool_tri_state (v : Cell) :
    (∀ s, v = Cell.str s → (strLower s = "t" ∨ strLower s = "true") →
      int2bool v = Cell.bool true) ∧
    (∀ s, v = Cell.str s → (strLower s = "f" ∨ strLower s = "false") →
      int2bool v = Cell.bool false) ∧
    (isBoolTokenStr v = false → ∀ n, pyIntOfCell? v = some n →
      int2bool v = Cell.bool (decide (n ≠ 0))) ∧
    (isBoolTokenStr v = false → pyIntOfCell? v = none → int2bool v = v) := by
  refine ⟨?_, ?_, ?_, ?_⟩
  · rintro s rfl h
    have h1 : isBoolTokenStr (Cell.str s) = true := by
      simp [isBoolTokenStr, boolTokens]
      rcases h with h | h <;> simp [h]
    have h2 : boolTokenValue (Cell.str s) = true := by
      rcases h with h | h <;> simp +decide [boolTokenValue, h]
    simp [int2bool, h1, h2]
  · rintro s rfl h
    have h1 : isBoolTokenStr (Cell.str s) = true := by
      simp [isBoolTokenStr, boolTokens]
      rcases h with h | h <;> simp [h]
    have h2 : boolTokenValue (Cell.str s) = false := by
      rcases h with h | h <;> simp +decide [boolTokenValue, h]
    simp [int2bool, h1, h2]
  · intro hb n hn
    have hbe : (n != 0) = decide (n ≠ 0) := by
      cases h : decide (n ≠ 0) <;> simp_all [bne]
    simp [int2bool, hb, hn, hbe]
  · intro hb hn
    simp [int2bool, hb, hn]

theorem int2bool_tri_state_witness :
    int2bool (Cell.str "True") = Cell.bool true ∧
    int2bool (Cell.str "0") = Cell.bool false ∧
    int2bool (Cell.str "abc") = Cell.str "abc" := by
  refine ⟨?_, ?_, ?_⟩
  · exact (int2bool_tri_state (Cell.str "True")).1 "True" rfl (Or.inr (by decide))

  · exact ((int2bool_tri_state (Cell.str "0")).2.2.1 (by decide) 0 (by decide)).trans (by decide)
  · exact (int2bool_tri_state (Cell.str "abc")).2.2.2 (by decide) (by decide)

lemma tokens_filter_map (u : ARow → ARow) (hu : ∀ r, (u r).phraseend = r.phraseend)
    (f : ARow → Rat) (rows : List ARow) :
    ((rows.map u).filter (fun r => phraseendTokens.contains r.phraseend)).map f =
      rows.filterMap (fun r =>
        if r.phraseend = "\\\\" ∨ r.phraseend = "\x7d" ∨ r.phraseend = "\x7d\x7b" then
          some (f (u r))
        else none) := by
  induction rows with
  | nil => rfl
  | cons a l ih =>
    by_cases h : a.phraseend = "\\\\" ∨ a.phraseend = "\x7d" ∨ a.phraseend = "\x7d\x7b"
    · have hmem : (u a).phraseend ∈ phraseendTokens := by
        rw [hu]
        rcases h with h | h | h <;> simp [phraseendTokens, h]
      simpa [List.filter_cons, List.filterMap_cons, hmem, h] using ih
    · have hmem : (u a).phraseend ∉ phraseendTokens := by
        rw [hu]
        simpa [phraseendTokens] using h
      simpa [List.filter_cons, List.filterMap_cons, hmem, h] using ih

/-- C3: `get_phraseends` returns exactly the values of the requested
position column for the rows whose phrase-end marker is one of the three
tokens (double backslash, closing brace, closing-opening brace pair), in
table order; when the requested column is `mn_fraction` and absent, the
position of every row is measure number plus measure onset divided by the
time signature read as a fraction. -/
theorem get_phraseends_spec (tbl : ATable) (col : PosCol) :
    get_phraseends tbl col =
      tbl.rows.filterMap (fun r =>
        if r.phraseend = "\\\\" ∨ r.phraseend = "\x7d" ∨ r.phraseend = "\x7d\x7b" then
          some (match col with
            | PosCol.quarterbeats => r.quarterbeats
            | PosCol.mn_fraction =>
                if tbl.hasMnFraction then r.mn_fraction
                else r.mn + r.mn_onset / r.timesig)
        else none) := by
  cases col with
  | quarterbeats =>
    have h := tokens_filter_map id (fun _ => rfl) (posRead PosCol.quarterbeats) tbl.rows
    simpa [get_phraseends, posRead] using h
  | mn_fraction =>
    cases hH : tbl.hasMnFraction with
    | true =>
      have h := tokens_filter_map id (fun _ => rfl) (posRead PosCol.mn_fraction) tbl.rows
      simp only [get_phraseends, hH, if_true]
      simpa [posRead, hH] using h
    | false =>
      have h := tokens_filter_map
        (fun r : ARow => { r with mn_fraction := computeMnFraction r })
        (fun _ => rfl) (posRead PosCol.mn_fraction) tbl.rows
      simp only [get_phraseends, hH, Bool.false_eq_true, if_false]
      simpa [posRead, computeMnFraction, hH] using h

/-- C4: when no immediate child directory contains a metadata file,
`concat_metadata` returns the empty table without raising, and `main`
reports that no metadata was found and returns without writing the TSV or
Markdown outputs. -/
theorem no_metadata_no_outputs (fs : List (String × Option DF))
    (h : ∀ p ∈ fs, p.2 = none) :
    concat_metadata fs = Except.ok emptyCDF ∧
    main_run fs = Except.ok ⟨[], true⟩ := by
  have hft : foundTables fs = [] := by
    apply List.filterMap_eq_nil_iff.mpr
    intro p hp
    have hpfs : p ∈ fs := (sortBy_perm (fun a b => strLe a.1 b.1) fs).mem_iff.mp
      (show p ∈ sortBy (fun a b => strLe a.1 b.1) fs from hp)
    rw [h p hpfs]
    rfl
  have h1 : concat_metadata fs = Except.ok emptyCDF := by
    simp [concat_metadata, hft]
  refine ⟨h1, ?_⟩
  unfold main_run
  rw [h1]
  rfl

theorem no_metadata_no_outputs_witness :
    (∀ p ∈ [("corpusA", (none : Option DF)), ("corpusB", none)], p.2 = none) ∧
    concat_metadata [("corpusA", none), ("corpusB", none)] = Except.ok emptyCDF ∧
    main_run [("corpusA", none), ("corpusB", none)] = Except.ok ⟨[], true⟩ :=
  ⟨by decide, no_metadata_no_outputs [("corpusA", none), ("corpusB", none)] (by decide)⟩

lemma exceptMapM_forall2 {α β : Type} (f : α → Except String β) :
    ∀ (l : List α) (out : List β), l.mapM f = Except.ok out →
      List.Forall₂ (fun a b => f a = Except.ok b) l out := by
  intro l
  induction l with
  | nil =>
    intro out h
    rw [List.mapM_nil] at h
    simp only [pure, Except.pure, Except.ok.injEq] at h
    rw [← h]
    exact List.Forall₂.nil
  | cons a l ih =>
    intro out h
    rw [List.mapM_cons] at h
    cases hfa : f a with
    | error e =>
      rw [hfa] at h
      simp [Bind.bind, Except.bind] at h
    | ok b =>
      rw [hfa] at h
      cases hml : l.mapM f with
      | error e =>
        rw [hml] at h
        simp [Bind.bind, Except.bind] at h
      | ok out2 =>
        rw [hml] at h
        simp only [Bind.bind, Except.bind, pure, Except.pure, Except.ok.injEq] at h
        rw [← h]
        exact List.Forall₂.cons hfa (ih out2 hml)

lemma exceptMapM_error {α β : Type} (f : α → Except String β) :
    ∀ (l : List α) (m : String), l.mapM f = Except.error m → ∃ a ∈ l, f a = Except.error m := by
  intro l
  induction l with
  | nil =>
    intro m h
    rw [List.mapM_nil] at h
    simp [pure, Except.pure] at h
  | cons a l ih =>
    intro m h
    rw [List.mapM_cons] at h
    cases hfa : f a with
    | error e =>
      rw [hfa] at h
      simp only [Bind.bind, Except.bind, Except.error.injEq] at h
      exact ⟨a, List.mem_cons_self a l, by rw [hfa, h]⟩
    | ok b =>
      rw [hfa] at h
      cases hml : l.mapM f with
      | error e =>
        rw [hml] at h
        simp only [Bind.bind, Except.bind, Except.error.injEq] at h
        rcases ih e hml with ⟨x, hx, hfx⟩
        exact ⟨x, List.mem_cons_of_mem a hx, by rw [hfx, h]⟩
      | ok out2 =>
        rw [hml] at h
        simp [Bind.bind, Except.bind, pure, Except.pure] at h

lemma exceptMapM_of_pointwise {α β : Type} (f : α → Except String β) (g : α → β) :
    ∀ l : List α, (∀ a ∈ l, f a = Except.ok (g a)) → l.mapM f = Except.ok (l.map g) := by
  intro l
  induction l with
  | nil => intro _; rfl
  | cons a l ih =>
    intro h
    rw [List.mapM_cons, h a (List.mem_cons_self a l),
      ih (fun x hx => h x (List.mem_cons_of_mem a hx))]
    rfl

lemma forall2_mem_right {α β : Type} {r : α → β → Prop} :
    ∀ {l1 : List α} {l2 : List β}, List.Forall₂ r l1 l2 → ∀ b ∈ l2, ∃ a ∈ l1, r a b := by
  intro l1 l2 h
  induction h with
  | nil => intro b hb; simp at hb
  | cons hr htail ih =>
    intro b hb
    rcases List.mem_cons.mp hb with rfl | hmem
    · exact ⟨_, List.mem_cons_self _ _, hr⟩
    · rcases ih b hmem with ⟨a, ha, hra⟩
      exact ⟨a, List.mem_cons_of_mem _ ha, hra⟩

lemma astypeBoolInt_ok_shape (c w : Cell) (h : astypeBoolInt c = Except.ok w) :
    w = Cell.null ∨ ∃ n, w = Cell.int n := by
  cases c with
  | null =>
    injection h with h2
    exact Or.inl h2.symm
  | str s => simp [astypeBoolInt] at h
  | bool b =>
    injection h with h2
    exact Or.inr ⟨if b then 1 else 0, h2.symm⟩
  | int n =>
    by_cases hn : (n == 0 || n == 1) = true
    · simp only [astypeBoolInt, hn, if_true, Except.ok.injEq] at h
      exact Or.inr ⟨n, h.symm⟩
    · simp only [astypeBoolInt, hn, if_false] at h
      cases h

/-- C2 counterexample: the claim says the transposed table carries the
shifted numeric axis values; at a one-record semitone table with global
key C the resulting axis value is the rendered note name, not the shifted
number. -/
theorem transposition_not_numeric_counterexample :
    (create_modulation_plan trivOps [⟨0, 1, "local", TaskVal.num 0⟩] "semitones" false
        "Modulation plan" (some "C") none none).map
      (fun s => s.records.map (fun r => r.task)) = some [TaskVal.str "C"] ∧
    TaskVal.str "C" ≠ TaskVal.num (0 + trivOps.name2pc "C") := by
  exact ⟨rfl, by decide⟩

/-- C2 (amended): with gap-filling disabled, supplying a global key for a
numeric axis leaves the record count and every Resource/Start/Finish
unchanged and replaces each axis value v by the note-name rendering
(midi2name for semitones, fifths2name for fifths) of v plus the single
fixed offset derived from the key (name2pc resp. name2fifths). -/
theorem create_modulation_plan_transposition (ops : TonalOps) (data : List GRecord)
    (tc k title : String) (ph : Option (List Rat))
    (htc : tc = "semitones" ∨ tc = "fifths") :
    ∃ spec, create_modulation_plan ops data tc false title (some k) ph none = some spec ∧
      spec.title = title ++ " (" ++ k ++ ")" ∧
      spec.records.length = data.length ∧
      ∀ i (h1 : i < data.length) (h2 : i < spec.records.length),
        (spec.records.get ⟨i, h2⟩).resource = (data.get ⟨i, h1⟩).resource ∧
        (spec.records.get ⟨i, h2⟩).start = (data.get ⟨i, h1⟩).start ∧
        (spec.records.get ⟨i, h2⟩).finish = (data.get ⟨i, h1⟩).finish ∧
        (spec.records.get ⟨i, h2⟩).task =
          TaskVal.str ((if tc = "fifths" then ops.fifths2name else ops.midi2name)
            (taskInt (data.get ⟨i, h1⟩).task +
              (if tc = "fifths" then ops.name2fifths else ops.name2pc) k)) := by
  rcases htc with rfl | rfl
  all_goals {
    refine ⟨_, rfl, rfl, by simp [create_modulation_plan], ?_⟩
    intro i h1 h2
    refine ⟨?_, ?_, ?_, ?_⟩ <;>
      simp [create_modulation_plan, List.get_eq_getElem, List.getElem_map, transposeTask, taskInt]
  }

theorem create_modulation_plan_transposition_witness :
    ∃ spec, create_modulation_plan trivOps [⟨0, 1, "local", TaskVal.num 3⟩]
        "semitones" false "Modulation plan" (some "C") none none = some spec ∧
      spec.title = "Modulation plan" ++ " (" ++ "C" ++ ")" ∧
      spec.records.length = [(⟨0, 1, "local", TaskVal.num 3⟩ : GRecord)].length ∧
      ∀ i (h1 : i < [(⟨0, 1, "local", TaskVal.num 3⟩ : GRecord)].length)
        (h2 : i < spec.records.length),
        (spec.records.get ⟨i, h2⟩).resource =
          ([(⟨0, 1, "local", TaskVal.num 3⟩ : GRecord)].get ⟨i, h1⟩).resource ∧
        (spec.records.get ⟨i, h2⟩).start =
          ([(⟨0, 1, "local", TaskVal.num 3⟩ : GRecord)].get ⟨i, h1⟩).start ∧
        (spec.records.get ⟨i, h2⟩).finish =
          ([(⟨0, 1, "local", TaskVal.num 3⟩ : GRecord)].get ⟨i, h1⟩).finish ∧
        (spec.records.get ⟨i, h2⟩).task =
          TaskVal.str ((if "semitones" = "fifths" then trivOps.fifths2name else trivOps.midi2name)
            (taskInt (([(⟨0, 1, "local", TaskVal.num 3⟩ : GRecord)].get ⟨i, h1⟩).task) +
              (if "semitones" = "fifths" then trivOps.name2fifths else trivOps.name2pc) "C")) :=
  create_modulation_plan_transposition trivOps [⟨0, 1, "local", TaskVal.num 3⟩]
    "semitones" "C" "Modulation plan" none (Or.inl rfl)

lemma present_mem_bcols {cols : List (String × List Cell)} {bcols : List String} {n : String}
    (h : (bcols.filter (fun b => (cols.map (fun p => p.1)).contains b)).contains n = true) :
    n ∈ bcols := by
  have := List.elem_iff.mp h
  exact (List.mem_filter.mp this).1

lemma mem_present_of {cols : List (String × List Cell)} {bcols : List String} {n : String}
    (hb : n ∈ bcols) (hn : n ∈ cols.map (fun p => p.1)) :
    (bcols.filter (fun b => (cols.map (fun p => p.1)).contains b)).contains n = true := by
  apply List.elem_iff.mpr
  exact List.mem_filter.mpr ⟨hb, List.elem_iff.mpr hn⟩

/-- C10: `convert_booleans` operates on a copy (the embedding is a pure
function of the input, mirroring `df.copy()`), keeps the column list, and
leaves every column not in the boolean list, as well as every listed
column whose values are all null, unchanged; a listed column with at
least one non-null value is re-encoded so that each cell is NA or an
integer. -/
theorem convert_booleans_frame (cols : List (String × List Cell)) (bcols : List String)
    (out : List (String × List Cell))
    (hnodup : (cols.map (fun p => p.1)).Nodup)
    (h : convert_booleans cols bcols = Except.ok out) :
    out.length = cols.length ∧
    ∀ i (h1 : i < cols.length) (h2 : i < out.length),
      ((cols.get ⟨i, h1⟩).1 ∉ bcols → out.get ⟨i, h2⟩ = cols.get ⟨i, h1⟩) ∧
      ((cols.get ⟨i, h1⟩).1 ∈ bcols → allNull (cols.get ⟨i, h1⟩).2 = true →
        out.get ⟨i, h2⟩ = cols.get ⟨i, h1⟩) ∧
      ((cols.get ⟨i, h1⟩).1 ∈ bcols → allNull (cols.get ⟨i, h1⟩).2 = false →
        (out.get ⟨i, h2⟩).1 = (cols.get ⟨i, h1⟩).1 ∧
        (out.get ⟨i, h2⟩).2.length = (cols.get ⟨i, h1⟩).2.length ∧
        ∀ c ∈ (out.get ⟨i, h2⟩).2, c = Cell.null ∨ ∃ n, c = Cell.int n) := by
  unfold convert_booleans at h
  by_cases hemp :
      (bcols.filter (fun b => (cols.map (fun p => p.1)).contains b)).isEmpty = true
  · rw [if_pos hemp] at h
    injection h with hout
    subst hout
    refine ⟨rfl, ?_⟩
    intro i h1 h2
    refine ⟨fun _ => rfl, fun _ _ => rfl, fun hmem _ => ?_⟩
    exfalso
    have hnil := List.isEmpty_iff.mp hemp
    have hnames : (cols.get ⟨i, h1⟩).1 ∈ cols.map (fun p => p.1) :=
      List.mem_map.mpr ⟨cols.get ⟨i, h1⟩, List.get_mem cols i h1, rfl⟩
    have : (cols.get ⟨i, h1⟩).1 ∈
        bcols.filter (fun b => (cols.map (fun p => p.1)).contains b) :=
      List.mem_filter.mpr ⟨hmem, List.elem_iff.mpr hnames⟩
    rw [hnil] at this
    simp at this
  · rw [if_neg hemp] at h
    have hf2 := exceptMapM_forall2 _ cols out h
    have hget := (List.forall₂_iff_get.mp hf2).2
    refine ⟨hf2.length_eq.symm, ?_⟩
    intro i h1 h2
    have hpc := hget i h1 h2
    have hnames : (cols.get ⟨i, h1⟩).1 ∈ cols.map (fun p => p.1) :=
      List.mem_map.mpr ⟨cols.get ⟨i, h1⟩, List.get_mem cols i h1, rfl⟩
    refine ⟨?_, ?_, ?_⟩
    · intro hnot
      have hcont : (bcols.filter
          (fun b => (cols.map (fun p => p.1)).contains b)).contains (cols.get ⟨i, h1⟩).1 = false := by
        cases hc : (bcols.filter
            (fun b => (cols.map (fun p => p.1)).contains b)).contains (cols.get ⟨i, h1⟩).1 with
        | false => rfl
        | true => exact absurd (present_mem_bcols hc) hnot
      rw [hcont] at hpc
      simp only [Bool.false_eq_true, if_false] at hpc
      injection hpc with hq
      exact hq.symm
    · intro hmem hnullAll
      rw [mem_present_of hmem hnames] at hpc
      simp only [if_true, hnullAll] at hpc
      injection hpc with hq
      exact hq.symm
    · intro hmem hnullSome
      rw [mem_present_of hmem hnames] at hpc
      simp only [if_true, hnullSome, Bool.false_eq_true, if_false] at hpc
      cases hws : (cols.get ⟨i, h1⟩).2.mapM astypeBoolInt with
      | error e =>
        rw [hws] at hpc
        simp [Bind.bind, Except.bind] at hpc
      | ok ws =>
        rw [hws] at hpc
        simp only [Bind.bind, Except.bind, Except.ok.injEq] at hpc
        have hwf := exceptMapM_forall2 _ _ _ hws
        rw [← hpc]
        refine ⟨rfl, hwf.length_eq.symm, ?_⟩
        intro c hc
        rcases forall2_mem_right hwf c hc with ⟨x, _, hx⟩
        exact astypeBoolInt_ok_shape x c hx

theorem convert_booleans_frame_witness :
    ([("has_drumset", [Cell.bool true, Cell.null]), ("fname", [Cell.str "a", Cell.str "b"])].map
        (fun p => p.1)).Nodup ∧
    convert_booleans [("has_drumset", [Cell.bool true, Cell.null]), ("fname", [Cell.str "a", Cell.str "b"])]
        BOOLEAN_COLUMNS =
      Except.ok [("has_drumset", [Cell.int 1, Cell.null]), ("fname", [Cell.str "a", Cell.str "b"])] ∧
    ([("has_drumset", [Cell.int 1, Cell.null]), ("fname", [Cell.str "a", Cell.str "b"])].length =
        [("has_drumset", [Cell.bool true, Cell.null]), ("fname", [Cell.str "a", Cell.str "b"])].length ∧
      ∀ i (h1 : i < [("has_drumset", [Cell.bool true, Cell.null]),
          ("fname", [Cell.str "a", Cell.str "b"])].length)
        (h2 : i < [("has_drumset", [Cell.int 1, Cell.null]),
          ("fname", [Cell.str "a", Cell.str "b"])].length),
        (([("has_drumset", [Cell.bool true, Cell.null]),
            ("fname", [Cell.str "a", Cell.str "b"])].get ⟨i, h1⟩).1 ∉ BOOLEAN_COLUMNS →
          [("has_drumset", [Cell.int 1, Cell.null]), ("fname", [Cell.str "a", Cell.str "b"])].get ⟨i, h2⟩ =
            [("has_drumset", [Cell.bool true, Cell.null]),
              ("fname", [Cell.str "a", Cell.str "b"])].get ⟨i, h1⟩) ∧
        (([("has_drumset", [Cell.bool true, Cell.null]),
            ("fname", [Cell.str "a", Cell.str "b"])].get ⟨i, h1⟩).1 ∈ BOOLEAN_COLUMNS →
          allNull ([("has_drumset", [Cell.bool true, Cell.null]),
            ("fname", [Cell.str "a", Cell.str "b"])].get ⟨i, h1⟩).2 = true →
          [("has_drumset", [Cell.int 1, Cell.null]), ("fname", [Cell.str "a", Cell.str "b"])].get ⟨i, h2⟩ =
            [("has_drumset", [Cell.bool true, Cell.null]),
              ("fname", [Cell.str "a", Cell.str "b"])].get ⟨i, h1⟩) ∧
        (([("has_drumset", [Cell.bool true, Cell.null]),
            ("fname", [Cell.str "a", Cell.str "b"])].get ⟨i, h1⟩).1 ∈ BOOLEAN_COLUMNS →
          allNull ([("has_drumset", [Cell.bool true, Cell.null]),
            ("fname", [Cell.str "a", Cell.str "b"])].get ⟨i, h1⟩).2 = false →
          (([("has_drumset", [Cell.int 1, Cell.null]),
            ("fname", [Cell.str "a", Cell.str "b"])].get ⟨i, h2⟩).1 =
            ([("has_drumset", [Cell.bool true, Cell.null]),
              ("fname", [Cell.str "a", Cell.str "b"])].get ⟨i, h1⟩).1 ∧
          (([("has_drumset", [Cell.int 1, Cell.null]),
            ("fname", [Cell.str "a", Cell.str "b"])].get ⟨i, h2⟩).2.length =
            ([("has_drumset", [Cell.bool true, Cell.null]),
              ("fname", [Cell.str "a", Cell.str "b"])].get ⟨i, h1⟩).2.length ∧
          ∀ c ∈ ([("has_drumset", [Cell.int 1, Cell.null]),
            ("fname", [Cell.str "a", Cell.str "b"])].get ⟨i, h2⟩).2,
            c = Cell.null ∨ ∃ n, c = Cell.int n)))) := by
  refine ⟨by decide, rfl, ?_⟩
  exact convert_booleans_frame
    [("has_drumset", [Cell.bool true, Cell.null]), ("fname", [Cell.str "a", Cell.str "b"])]
    BOOLEAN_COLUMNS
    [("has_drumset", [Cell.int 1, Cell.null]), ("fname", [Cell.str "a", Cell.str "b"])]
    (by decide) rfl

lemma beq_eq_false_of_ne {a b : String} (h : a ≠ b) : (a == b) = false := by
  cases hab : a == b with
  | false => rfl
  | true => exact absurd (by simpa using hab) h

lemma lookupCol_eq_none_iff (t : CDF) (c : String) :
    t.lookupCol c = none ↔ t.names.contains c = false := by
  constructor
  · intro h
    have hf : t.cols.find? (fun p => p.1 == c) = none := by
      cases hf : t.cols.find? (fun p => p.1 == c) with
      | none => rfl
      | some p => rw [CDF.lookupCol, hf] at h; cases h
    have hall := List.find?_eq_none.mp hf
    cases hc : t.names.contains c with
    | false => rfl
    | true =>
      exfalso
      rcases List.mem_map.mp (List.elem_iff.mp hc) with ⟨p, hp, hpc⟩
      exact hall p hp (by simp [hpc])
  · intro h
    have hall : ∀ p ∈ t.cols, ¬((fun p : String × List Cell => p.1 == c) p = true) := by
      intro p hp hpc
      have hmem : c ∈ t.names := by
        have hpc2 : p.1 = c := by simpa using hpc
        exact hpc2 ▸ List.mem_map.mpr ⟨p, hp, rfl⟩
      have h2 : t.names.contains c = true := List.elem_iff.mpr hmem
      rw [h2] at h
      cases h
    rw [CDF.lookupCol, List.find?_eq_none.mpr hall]
    rfl

lemma lookupCol_isSome_of_contains (t : CDF) (c : String)
    (h : t.names.contains c = true) : ∃ vs, t.lookupCol c = some vs := by
  cases hl : t.lookupCol c with
  | none => rw [(lookupCol_eq_none_iff t c).mp hl] at h; cases h
  | some vs => exact ⟨vs, rfl⟩

lemma setCol_corpus (t : CDF) (c : String) (vs : List Cell) :
    (t.setCol c vs).corpus = t.corpus := rfl

lemma setCol_names (t : CDF) (c : String) (vs : List Cell) :
    (t.setCol c vs).names = t.names := by
  show (t.cols.map (fun p => if p.1 == c then (c, vs) else p)).map (fun p => p.1) =
    t.cols.map (fun p => p.1)
  rw [List.map_map]
  apply List.map_congr_left
  intro p _
  by_cases hp : p.1 = c
  · simp [hp]
  · simp [hp]

lemma find_setCol_list (c : String) (vs : List Cell) (p0 : String × List Cell)
    (hp0c : p0.1 = c) : ∀ L : List (String × List Cell), p0 ∈ L →
    ((L.map (fun p => if p.1 == c then (c, vs) else p)).find?
      (fun p => p.1 == c)).map (fun p => p.2) = some vs := by
  intro L
  induction L with
  | nil => intro hp0; simp at hp0
  | cons a l ih =>
    intro hp0
    by_cases ha : (a.1 == c) = true
    · rw [List.map_cons, if_pos ha]
      simp [List.find?_cons]
    · have ha2 : (a.1 == c) = false := by simpa using ha
      rw [List.map_cons, if_neg ha]
      rcases List.mem_cons.mp hp0 with rfl | hmem
      · rw [hp0c] at ha2
        simp at ha2
      · simpa [List.find?_cons, ha2] using ih hmem

lemma lookupCol_setCol_self (t : CDF) (c : String) (vs : List Cell)
    (h : t.names.contains c = true) : (t.setCol c vs).lookupCol c = some vs := by
  rcases List.mem_map.mp (List.elem_iff.mp h) with ⟨p0, hp0, hp0c⟩
  exact find_setCol_list c vs p0 hp0c t.cols hp0

lemma lookupCol_setCol_ne (t : CDF) (c c2 : String) (vs : List Cell)
    (h : c2 ≠ c) : (t.setCol c vs).lookupCol c2 = t.lookupCol c2 := by
  show ((t.cols.map (fun p => if p.1 == c then (c, vs) else p)).find?
      (fun p => p.1 == c2)).map (fun p => p.2) =
    (t.cols.find? (fun p => p.1 == c2)).map (fun p => p.2)
  induction t.cols with
  | nil => rfl
  | cons a l ih =>
    by_cases ha : (a.1 == c) = true
    · have ha1 : a.1 = c := by simpa using ha
      have hc2a : (c == c2) = false := beq_eq_false_of_ne (fun hx => h (hx.symm))
      have hac2 : (a.1 == c2) = false := by rw [ha1]; exact hc2a
      rw [List.map_cons, if_pos ha]
      simpa [List.find?_cons, hc2a, hac2] using ih
    · rw [List.map_cons, if_neg ha]
      by_cases ha2 : (a.1 == c2) = true
      · simp [List.find?_cons, ha2]
      · have ha3 : (a.1 == c2) = false := by simpa using ha2
        simpa [List.find?_cons, ha3] using ih

lemma rewritePathCol_ok (t : CDF) (c : String) (vs : List Cell)
    (hlk : t.lookupCol c = some vs)
    (hcells : ∀ p ∈ t.corpus.zip vs, ∃ s, p.2 = Cell.str s) :
    rewritePathCol t c = Except.ok (t.setCol c ((t.corpus.zip vs).map (fun p =>
      match p.2 with
      | Cell.str s => Cell.str (posixJoin p.1 s)
      | x => x))) := by
  have hmapM := exceptMapM_of_pointwise (fun p : String × Cell => joinCellE p.1 p.2)
    (fun p => match p.2 with
      | Cell.str s => Cell.str (posixJoin p.1 s)
      | x => x)
    (t.corpus.zip vs)
    (by
      intro p hp
      rcases hcells p hp with ⟨s, hs⟩
      show joinCellE p.1 p.2 = Except.ok (match p.2 with
        | Cell.str s => Cell.str (posixJoin p.1 s)
        | x => x)
      rw [hs]
      rfl)
  simp only [rewritePathCol, hlk]
  rw [hmapM]
  rfl

lemma rewritePathCol_error_msg (t : CDF) (c : String) (m : String)
    (h : rewritePathCol t c = Except.error m) : m = typeErrorMsg := by
  cases hlk : t.lookupCol c with
  | none => simp [rewritePathCol, hlk] at h
  | some vs =>
    simp only [rewritePathCol, hlk] at h
    cases hm : (t.corpus.zip vs).mapM (fun p => joinCellE p.1 p.2) with
    | error e =>
      rw [hm] at h
      simp only [Bind.bind, Except.bind, Except.error.injEq] at h
      rcases exceptMapM_error _ _ _ hm with ⟨p, _, hp⟩
      rw [h] at hp
      cases hp2 : p.2 with
      | str s =>
        rw [hp2] at hp
        simp [joinCellE] at hp
      | null =>
        rw [hp2] at hp
        injection hp with h2
        exact h2.symm
      | bool b =>
        rw [hp2] at hp
        injection hp with h2
        exact h2.symm
      | int n =>
        rw [hp2] at hp
        injection hp with h2
        exact h2.symm
    | ok ws =>
      rw [hm] at h
      simp [Bind.bind, Except.bind] at h

lemma find?_pair_eq {p : String → Bool} {a b c : String}
    (h : List.find? p [a, b] = some c) : c = a ∨ c = b := by
  by_cases ha : p a = true
  · simp [List.find?_cons, ha] at h
    exact Or.inl h.symm
  · by_cases hb : p b = true
    · simp [List.find?_cons, ha, hb] at h
      exact Or.inr h.symm
    · simp [List.find?_cons, ha, hb] at h

lemma posixJoin_prepend (a b : String) (ha1 : a ≠ "") (ha2 : strEndsWith a "/" = false)
    (hb : strStartsWith b "/" = false) : posixJoin a b = a ++ "/" ++ b := by
  have h1 : (a == "") = false := beq_eq_false_of_ne ha1
  simp [posixJoin, hb, h1, ha2]

lemma concat_metadata_eval (fs : List (String × Option DF)) (relcol : String)
    (hne : (foundTables fs).isEmpty = false)
    (hfind : ["subdirectory", "rel_paths"].find?
        (fun c => (concatRaw fs).names.contains c) = some relcol) :
    concat_metadata fs = (do
      let t1 ← rewritePathCol (concatRaw fs) relcol
      let t2 ← if t1.names.contains "rel_path" then rewritePathCol t1 "rel_path" else pure t1
      Except.ok t2) := by
  rw [concat_metadata, if_neg (by simp [hne]), hfind]

lemma rewritePathCol_ok_joined (t : CDF) (c : String) (vs : List Cell)
    (hlk : t.lookupCol c = some vs)
    (hcells : ∀ p ∈ t.corpus.zip vs, ∃ s, p.2 = Cell.str s) :
    rewritePathCol t c = Except.ok (t.setCol c (joinedCol t.corpus vs)) :=
  rewritePathCol_ok t c vs hlk hcells

lemma relCellOk_spec (p : String × Cell) (h : relCellOk p = true) :
    p.1 ≠ "" ∧ strEndsWith p.1 "/" = false ∧
      ∃ s, p.2 = Cell.str s ∧ strStartsWith s "/" = false := by
  rw [relCellOk] at h
  cases hp2 : p.2 with
  | str s =>
    rw [hp2] at h
    simp only [Bool.and_eq_true, Bool.not_eq_true'] at h
    refine ⟨?_, h.1.2, s, rfl, h.2⟩
    intro hx
    rw [hx] at h
    simp at h
  | null => rw [hp2] at h; simp at h
  | bool b => rw [hp2] at h; simp at h
  | int n => rw [hp2] at h; simp at h

/-- C5: after a successful concatenation that owns a relative-path column
(first of `subdirectory`, `rel_paths`), every value of that column in the
result equals the owning subdirectory name joined exactly once in front
of the original value; a `rel_path` column, when present, is rewritten
identically.  The well-formedness hypotheses (values are relative paths,
subdirectory names are nonempty without trailing slash) are what makes
`os.path.join` prepend exactly once. -/
theorem concat_metadata_prefixes_paths (fs : List (String × Option DF)) (relcol : String)
    (hne : (foundTables fs).isEmpty = false)
    (hfind : ["subdirectory", "rel_paths"].find?
        (fun c => (concatRaw fs).names.contains c) = some relcol)
    (hrel : ∀ p ∈ (concatRaw fs).corpus.zip (((concatRaw fs).lookupCol relcol).getD []),
        relCellOk p = true)
    (hrp : ∀ p ∈ (concatRaw fs).corpus.zip (((concatRaw fs).lookupCol "rel_path").getD []),
        relCellOk p = true) :
    ∃ out, concat_metadata fs = Except.ok out ∧
      out.corpus = (concatRaw fs).corpus ∧
      (∀ vs, (concatRaw fs).lookupCol relcol = some vs →
        out.lookupCol relcol = some (((concatRaw fs).corpus.zip vs).map (fun p =>
          match p.2 with
          | Cell.str s => Cell.str (p.1 ++ "/" ++ s)
          | x => x))) ∧
      ((concatRaw fs).names.contains "rel_path" = true →
        ∀ vs, (concatRaw fs).lookupCol "rel_path" = some vs →
          out.lookupCol "rel_path" = some (((concatRaw fs).corpus.zip vs).map (fun p =>
            match p.2 with
            | Cell.str s => Cell.str (p.1 ++ "/" ++ s)
            | x => x))) := by
  have hcontains : (concatRaw fs).names.contains relcol = true := by
    simpa using List.find?_some hfind
  rcases lookupCol_isSome_of_contains (concatRaw fs) relcol hcontains with ⟨vs, hvs⟩
  have hrel2 := fun p hp => hrel p (by rw [hvs]; exact hp)
  have hcells : ∀ p ∈ (concatRaw fs).corpus.zip vs, ∃ s, p.2 = Cell.str s := by
    intro p hp
    rcases relCellOk_spec p (hrel2 p hp) with ⟨_, _, s, hs, _⟩
    exact ⟨s, hs⟩
  have hrw1 := rewritePathCol_ok_joined (concatRaw fs) relcol vs hvs hcells
  have hrelne : relcol ≠ "rel_path" := by
    rcases find?_pair_eq hfind with rfl | rfl <;> decide
  have hmapeq : joinedCol (concatRaw fs).corpus vs =
      ((concatRaw fs).corpus.zip vs).map (fun p =>
        match p.2 with
        | Cell.str s => Cell.str (p.1 ++ "/" ++ s)
        | x => x) := by
    apply List.map_congr_left
    intro p hp
    rcases relCellOk_spec p (hrel2 p hp) with ⟨h1, h2, s, hs, h3⟩
    rw [hs]
    show Cell.str (posixJoin p.1 s) = Cell.str (p.1 ++ "/" ++ s)
    rw [posixJoin_prepend p.1 s h1 h2 h3]
  by_cases hrpc : (concatRaw fs).names.contains "rel_path" = true
  · rcases lookupCol_isSome_of_contains (concatRaw fs) "rel_path" hrpc with ⟨vs2, hvs2⟩
    have hrp2 := fun p hp => hrp p (by rw [hvs2]; exact hp)
    have hcells2 : ∀ p ∈ (concatRaw fs).corpus.zip vs2, ∃ s, p.2 = Cell.str s := by
      intro p hp
      rcases relCellOk_spec p (hrp2 p hp) with ⟨_, _, s, hs, _⟩
      exact ⟨s, hs⟩
    have hlk2 : ((concatRaw fs).setCol relcol (joinedCol (concatRaw fs).corpus vs)).lookupCol
        "rel_path" = some vs2 := by
      rw [lookupCol_setCol_ne _ _ _ _ (fun h => hrelne h.symm)]
      exact hvs2
    have hcells2b : ∀ p ∈ ((concatRaw fs).setCol relcol
        (joinedCol (concatRaw fs).corpus vs)).corpus.zip vs2, ∃ s, p.2 = Cell.str s := hcells2
    have hrw2 := rewritePathCol_ok_joined _ "rel_path" vs2 hlk2 hcells2b
    have hmapeq2 : joinedCol ((concatRaw fs).setCol relcol
        (joinedCol (concatRaw fs).corpus vs)).corpus vs2 =
      ((concatRaw fs).corpus.zip vs2).map (fun p =>
        match p.2 with
        | Cell.str s => Cell.str (p.1 ++ "/" ++ s)
        | x => x) := by
      apply List.map_congr_left
      intro p hp
      rcases relCellOk_spec p (hrp2 p hp) with ⟨h1, h2, s, hs, h3⟩
      rw [hs]
      show Cell.str (posixJoin p.1 s) = Cell.str (p.1 ++ "/" ++ s)
      rw [posixJoin_prepend p.1 s h1 h2 h3]
    have heval : concat_metadata fs = Except.ok
        (((concatRaw fs).setCol relcol (joinedCol (concatRaw fs).corpus vs)).setCol "rel_path"
          (joinedCol ((concatRaw fs).setCol relcol
            (joinedCol (concatRaw fs).corpus vs)).corpus vs2)) := by
      rw [concat_metadata_eval fs relcol hne hfind, hrw1]
      show (do
        let t2 ← if ((concatRaw fs).setCol relcol
            (joinedCol (concatRaw fs).corpus vs)).names.contains "rel_path" then
          rewritePathCol ((concatRaw fs).setCol relcol (joinedCol (concatRaw fs).corpus vs))
            "rel_path"
        else pure ((concatRaw fs).setCol relcol (joinedCol (concatRaw fs).corpus vs))
        Except.ok t2) = _
      rw [if_pos (by rw [setCol_names]; exact hrpc), hrw2]
      rfl
    refine ⟨_, heval, rfl, ?_, ?_⟩
    · intro vs0 hvs0
      rw [hvs] at hvs0
      injection hvs0 with hvs0
      rw [← hvs0]
      rw [lookupCol_setCol_ne _ _ _ _ hrelne,
        lookupCol_setCol_self _ _ _ hcontains, hmapeq]
    · intro _ vs0 hvs0
      rw [hvs2] at hvs0
      injection hvs0 with hvs0
      rw [← hvs0]
      rw [lookupCol_setCol_self _ _ _ (by rw [setCol_names]; exact hrpc), hmapeq2]
  · have heval : concat_metadata fs = Except.ok
        ((concatRaw fs).setCol relcol (joinedCol (concatRaw fs).corpus vs)) := by
      rw [concat_metadata_eval fs relcol hne hfind, hrw1]
      show (do
        let t2 ← if ((concatRaw fs).setCol relcol
            (joinedCol (concatRaw fs).corpus vs)).names.contains "rel_path" then
          rewritePathCol ((concatRaw fs).setCol relcol (joinedCol (concatRaw fs).corpus vs))
            "rel_path"
        else pure ((concatRaw fs).setCol relcol (joinedCol (concatRaw fs).corpus vs))
        Except.ok t2) = _
      rw [if_neg (by rw [setCol_names]; exact hrpc)]
      rfl
    refine ⟨_, heval, rfl, ?_, ?_⟩
    · intro vs0 hvs0
      rw [hvs] at hvs0
      injection hvs0 with hvs0
      rw [← hvs0]
      rw [lookupCol_setCol_self _ _ _ hcontains, hmapeq]
    · intro hcon
      exact absurd hcon hrpc

theorem concat_metadata_prefixes_paths_witness :
    (foundTables fsC5).isEmpty = false ∧
    ["subdirectory", "rel_paths"].find? (fun c => (concatRaw fsC5).names.contains c) =
      some "subdirectory" ∧
    (∃ out, concat_metadata fsC5 = Except.ok out ∧
      out.corpus = (concatRaw fsC5).corpus ∧
      (∀ vs, (concatRaw fsC5).lookupCol "subdirectory" = some vs →
        out.lookupCol "subdirectory" = some (((concatRaw fsC5).corpus.zip vs).map (fun p =>
          match p.2 with
          | Cell.str s => Cell.str (p.1 ++ "/" ++ s)
          | x => x))) ∧
      ((concatRaw fsC5).names.contains "rel_path" = true →
        ∀ vs, (concatRaw fsC5).lookupCol "rel_path" = some vs →
          out.lookupCol "rel_path" = some (((concatRaw fsC5).corpus.zip vs).map (fun p =>
            match p.2 with
            | Cell.str s => Cell.str (p.1 ++ "/" ++ s)
            | x => x)))) :=
  ⟨by decide, by decide,
    concat_metadata_prefixes_paths fsC5 "subdirectory" (by decide) (by decide)
      (by decide) (by decide)⟩

lemma find?_pair_none {p : String → Bool} {a b : String} :
    List.find? p [a, b] = none ↔ p a = false ∧ p b = false := by
  cases ha : p a <;> cases hb : p b <;> simp [List.find?_cons, ha, hb]

lemma concat_metadata_error_with_col (fs : List (String × Option DF)) (relcol m : String)
    (hne : (foundTables fs).isEmpty = false)
    (hfind : ["subdirectory", "rel_paths"].find?
        (fun c => (concatRaw fs).names.contains c) = some relcol)
    (h : concat_metadata fs = Except.error m) : m = typeErrorMsg := by
  rw [concat_metadata_eval fs relcol hne hfind] at h
  cases h1 : rewritePathCol (concatRaw fs) relcol with
  | error e =>
    rw [h1] at h
    simp only [Bind.bind, Except.bind, Except.error.injEq] at h
    rw [← h]
    exact rewritePathCol_error_msg _ _ _ h1
  | ok t1 =>
    rw [h1] at h
    simp only [Bind.bind, Except.bind] at h
    by_cases hrp : t1.names.contains "rel_path" = true
    · rw [if_pos hrp] at h
      cases h2 : rewritePathCol t1 "rel_path" with
      | error e =>
        rw [h2] at h
        simp only [Bind.bind, Except.bind, Except.error.injEq] at h
        rw [← h]
        exact rewritePathCol_error_msg _ _ _ h2
      | ok t2 =>
        rw [h2] at h
        simp [Bind.bind, Except.bind] at h
    · rw [if_neg hrp] at h
      simp [Bind.bind, Except.bind, pure, Except.pure] at h

lemma keyError_no_fname (names : List String) (hfile : names.contains "file_name" = true) :
    containsSubstr (keyErrorMsg (displayTargets.filter (fun c2 => !names.contains c2)))
      "fname" = false := by
  cases h1 : names.contains "measures" <;> cases h2 : names.contains "labels" <;>
    cases h3 : names.contains "standard" <;>
    simp only [displayTargets, List.filter_cons, List.filter_nil, hfile, h1, h2, h3,
      Bool.not_true, Bool.not_false, if_true, if_false] <;>
    decide

set_option maxRecDepth 4000 in
/-- C8: for a table with at least one per-directory metadata file, the
concatenation step raises an error whose message names the required
column (both legacy names) exactly when neither `subdirectory` nor
`rel_paths` is a column; likewise `metadata2markdown` raises an error
naming `fname`/`fnames` exactly when neither is a column.  Both errors
are modelled as `Except.error`, aborting the run at that point. -/
theorem missing_column_errors :
    (∀ fs : List (String × Option DF), (foundTables fs).isEmpty = false →
      ((∃ m, concat_metadata fs = Except.error m ∧ containsSubstr m "subdirectory" = true ∧
          containsSubstr m "rel_paths" = true) ↔
        ((concatRaw fs).names.contains "subdirectory" = false ∧
         (concatRaw fs).names.contains "rel_paths" = false))) ∧
    (∀ t : CDF, t.corpus ≠ [] →
      ((∃ m, metadata2markdown t = Except.error m ∧ containsSubstr m "fname" = true ∧
          containsSubstr m "fnames" = true) ↔
        (t.names.contains "fname" = false ∧ t.names.contains "fnames" = false))) := by
  constructor
  · intro fs hne
    constructor
    · rintro ⟨m, herr, hsub, hrelp⟩
      cases hfind : ["subdirectory", "rel_paths"].find?
          (fun c => (concatRaw fs).names.contains c) with
      | none => exact find?_pair_none.mp hfind
      | some c =>
        have hm := concat_metadata_error_with_col fs c m hne hfind herr
        rw [hm] at hsub
        exact absurd hsub (by decide)
    · rintro ⟨h1, h2⟩
      have hfind : ["subdirectory", "rel_paths"].find?
          (fun c => (concatRaw fs).names.contains c) = none :=
        find?_pair_none.mpr ⟨h1, h2⟩
      refine ⟨relPathColErrorMsg, ?_, by decide, by decide⟩
      rw [concat_metadata, if_neg (by simp [hne]), hfind]
  · intro t _
    constructor
    · rintro ⟨m, herr, hf1, hf2⟩
      cases hfind : ["fname", "fnames"].find? (fun c => t.names.contains c) with
      | none => exact find?_pair_none.mp hfind
      | some c =>
        exfalso
        have hctrue : t.names.contains c = true := by simpa using List.find?_some hfind
        rcases List.mem_map.mp (List.elem_iff.mp hctrue) with ⟨p, hp, hpc⟩
        have hfile : (renamedCDF t c).names.contains "file_name" = true := by
          apply List.elem_iff.mpr
          show "file_name" ∈ (t.cols.map (fun p => (renameFor c p.1, p.2))).map (fun q => q.1)
          refine List.mem_map.mpr ⟨(renameFor c p.1, p.2), List.mem_map.mpr ⟨p, hp, rfl⟩, ?_⟩
          show renameFor c p.1 = "file_name"
          rw [hpc, renameFor]
          simp
        rw [metadata2markdown, hfind] at herr
        simp only [Bind.bind, Except.bind] at herr
        by_cases hmiss : (missingDisplay t c).isEmpty = true
        · rw [if_neg (by simp [hmiss])] at herr
          cases herr
        · rw [if_pos (by simp [List.isEmpty_iff] at hmiss ⊢; exact hmiss)] at herr
          injection herr with herr2
          rw [← herr2] at hf1
          have := keyError_no_fname (renamedCDF t c).names hfile
          rw [show missingDisplay t c =
            displayTargets.filter (fun c2 => !(renamedCDF t c).names.contains c2) from rfl] at hf1
          rw [this] at hf1
          cases hf1
    · rintro ⟨h1, h2⟩
      have hfind : ["fname", "fnames"].find? (fun c => t.names.contains c) = none :=
        find?_pair_none.mpr ⟨h1, h2⟩
      refine ⟨fnameColErrorMsg, ?_, by decide, by decide⟩
      rw [metadata2markdown, hfind]
      rfl

/-- Concrete inputs for the missing-column error cases. -/
def fsC8 : List (String × Option DF) :=
  [("corpusA", some ⟨[("fname", [Cell.str "x"]), ("rel_path", [Cell.str "y"])]⟩)]

def tC8 : CDF := ⟨["corpusA"], [("subdirectory", [Cell.str "x"])]⟩

theorem missing_column_errors_witness :
    (∃ m, concat_metadata fsC8 = Except.error m ∧ containsSubstr m "subdirectory" = true ∧
      containsSubstr m "rel_paths" = true) ∧
    (∃ m, metadata2markdown tC8 = Except.error m ∧ containsSubstr m "fname" = true ∧
      containsSubstr m "fnames" = true) :=
  ⟨(missing_column_errors.1 fsC8 (by decide)).mpr (by decide),
   (missing_column_errors.2 tC8 (by decide)).mpr (by decide)⟩

lemma mem_intRange (mi ma m : Int) : m ∈ intRange mi ma ↔ mi ≤ m ∧ m < ma := by
  rw [intRange]
  constructor
  · intro h
    rcases List.mem_map.mp h with ⟨i, hi, rfl⟩
    rw [List.mem_range] at hi
    omega
  · intro h
    apply List.mem_map.mpr
    exact ⟨(m - mi).toNat, List.mem_range.mpr (by omega), by omega⟩

lemma nodup_intRange (mi ma : Int) : (intRange mi ma).Nodup := by
  rw [intRange]
  exact List.Nodup.map (fun a b h => by omega) (List.nodup_range _)

lemma missingVals_eq (data : List GRecord) (vmin vmax : Int)
    (h1 : (taskVals data).min? = some vmin) (h2 : (taskVals data).max? = some vmax) :
    missingVals data =
      (intRange (min 0 vmin) vmax).filter (fun m => !(taskVals data).contains m) := by
  simp only [missingVals, h1, h2]

lemma mem_missingVals (data : List GRecord) (vmin vmax m : Int)
    (h1 : (taskVals data).min? = some vmin) (h2 : (taskVals data).max? = some vmax) :
    m ∈ missingVals data ↔
      (min 0 vmin ≤ m ∧ m < vmax ∧ m ∉ taskVals data) := by
  rw [missingVals_eq data vmin vmax h1 h2]
  simp only [List.mem_filter, mem_intRange, Bool.not_eq_true']
  constructor
  · rintro ⟨⟨ha, hb⟩, hc⟩
    refine ⟨ha, hb, ?_⟩
    intro hmem
    have hctrue : (taskVals data).contains m = true := List.elem_iff.mpr hmem
    rw [hctrue] at hc
    cases hc
  · rintro ⟨ha, hb, hc⟩
    refine ⟨⟨ha, hb⟩, ?_⟩
    cases hcon : (taskVals data).contains m with
    | false => rfl
    | true => exact absurd (List.elem_iff.mp hcon) hc

lemma nodup_missingVals (data : List GRecord) (vmin vmax : Int)
    (h1 : (taskVals data).min? = some vmin) (h2 : (taskVals data).max? = some vmax) :
    (missingVals data).Nodup := by
  rw [missingVals_eq data vmin vmax h1 h2]
  exact List.Nodup.filter _ (nodup_intRange _ _)

lemma cmp_fill_eq (ops : TonalOps) (a : GRecord) (l : List GRecord) (tc title : String)
    (htc : tc = "semitones" ∨ tc = "fifths") (ph : Option (List Rat)) :
    create_modulation_plan ops (a :: l) tc true title none ph none =
      some { records := sortDescNum ((a :: l) ++ (missingVals (a :: l)).map placeholderRec)
           , title := title
           , xTitle := "Measures"
           , yTitle := Y_AXIS ++ " (" ++ tc ++ ")"
           , shapes := ph.map (fun ps => ps.map (fun p => (⟨p, 0, p, 20⟩ : Shape)))
           , colors := KEY_COLORS } := by
  rcases htc with rfl | rfl <;> rfl

lemma placeholderRec_inj : Function.Injective placeholderRec := by
  intro x y hxy
  simpa [placeholderRec, GRecord.mk.injEq] using hxy

/-- C1: with gap-filling enabled on a numeric axis, the chart records are
the original records plus, for each integer between the clamped minimum
(min of 0 and the smallest axis value) and the largest axis value that
does not occur in the table, exactly one zero-length placeholder record
with Start 0, Finish 0, Resource local, carrying that integer. -/
theorem create_modulation_plan_gap_filling (ops : TonalOps) (data : List GRecord)
    (tc title : String) (ph : Option (List Rat))
    (htc : tc = "semitones" ∨ tc = "fifths") (hne : data ≠ [])
    (hnum : allNum data = true) :
    ∃ spec, create_modulation_plan ops data tc true title none ph none = some spec ∧
      spec.records.Perm (data ++ (missingVals data).map placeholderRec) ∧
      ∀ vmin vmax m : Int, (taskVals data).min? = some vmin →
        (taskVals data).max? = some vmax →
        min 0 vmin ≤ m → m ≤ vmax → (∀ r ∈ data, r.task ≠ TaskVal.num m) →
        spec.records.count (placeholderRec m) = 1 := by
  cases data with
  | nil => exact absurd rfl hne
  | cons a l =>
    refine ⟨_, cmp_fill_eq ops a l tc title htc ph, sortBy_perm _ _, ?_⟩
    intro vmin vmax m hmin hmax hm1 hm2 hnot
    have hperm : (sortDescNum ((a :: l) ++ (missingVals (a :: l)).map placeholderRec)).Perm
        ((a :: l) ++ (missingVals (a :: l)).map placeholderRec) := sortBy_perm _ _
    rw [hperm.count_eq, List.count_append]
    have hmnot : m ∉ taskVals (a :: l) := by
      intro hmem
      rcases List.mem_map.mp hmem with ⟨r, hr, hrm⟩
      have hnum2 : r.task.isNum = true := by
        have := List.all_eq_true.mp hnum r hr
        simpa using this
      cases ht : r.task with
      | str s => rw [ht] at hnum2; cases hnum2
      | num n =>
        rw [ht] at hrm
        have : r.task = TaskVal.num m := by rw [ht, ← hrm]; rfl
        exact hnot r hr this
    have hc1 : (a :: l).count (placeholderRec m) = 0 := by
      apply List.count_eq_zero.mpr
      intro hmem
      exact hnot _ hmem rfl
    rw [hc1]
    have hvmaxmem : vmax ∈ taskVals (a :: l) := List.max?_mem max_choice hmax
    have hmm : m ∈ missingVals (a :: l) := by
      rw [mem_missingVals _ vmin vmax m hmin hmax]
      refine ⟨hm1, ?_, hmnot⟩
      rcases lt_or_eq_of_le hm2 with hlt | heq
      · exact hlt
      · exact absurd (heq ▸ hvmaxmem) hmnot
    rw [List.count_map_of_injective _ placeholderRec placeholderRec_inj m,
      List.count_eq_one_of_mem (nodup_missingVals _ vmin vmax hmin hmax) hmm]

/-- Concrete interval table with axis values -2 and 3. -/
def dataC1 : List GRecord :=
  [⟨1, 2, "local", TaskVal.num (-2)⟩, ⟨3, 4, "applied", TaskVal.num 3⟩]

theorem create_modulation_plan_gap_filling_witness :
    (dataC1 ≠ [] ∧ allNum dataC1 = true ∧ missingVals dataC1 = [-1, 0, 1, 2]) ∧
    (∃ spec, create_modulation_plan trivOps dataC1 "semitones" true "Modulation plan"
        none none none = some spec ∧
      spec.records.Perm (dataC1 ++ (missingVals dataC1).map placeholderRec) ∧
      ∀ vmin vmax m : Int, (taskVals dataC1).min? = some vmin →
        (taskVals dataC1).max? = some vmax →
        min 0 vmin ≤ m → m ≤ vmax → (∀ r ∈ dataC1, r.task ≠ TaskVal.num m) →
        spec.records.count (placeholderRec m) = 1) :=
  ⟨⟨by decide, by decide, by decide⟩,
    create_modulation_plan_gap_filling trivOps dataC1 "semitones" "Modulation plan" none
      (Or.inl rfl) (by decide) (by decide)⟩

/-- C9: with gap-filling enabled on a numeric axis, the chart records are
a permutation of the original records together with the synthesized
placeholders, sorted by the axis value in descending numeric order. -/
theorem create_modulation_plan_sorted_desc (ops : TonalOps) (data : List GRecord)
    (tc title : String) (ph : Option (List Rat))
    (htc : tc = "semitones" ∨ tc = "fifths") (hne : data ≠ [])
    (hnum : allNum data = true) :
    ∃ spec, create_modulation_plan ops data tc true title none ph none = some spec ∧
      spec.records.Perm (data ++ (missingVals data).map placeholderRec) ∧
      spec.records.Sorted (fun r1 r2 => taskInt r2.task ≤ taskInt r1.task) := by
  cases data with
  | nil => exact absurd rfl hne
  | cons a l =>
    refine ⟨_, cmp_fill_eq ops a l tc title htc ph, sortBy_perm _ _, ?_⟩
    have hp := pairwise_sortBy (fun r1 r2 : GRecord => decide (taskInt r2.task ≤ taskInt r1.task))
      (fun x y z hxy hyz => decide_eq_true
        (le_trans (of_decide_eq_true hyz) (of_decide_eq_true hxy)))
      (fun x y => by
        rcases le_total (taskInt y.task) (taskInt x.task) with h | h
        · exact Or.inl (decide_eq_true h)
        · exact Or.inr (decide_eq_true h))
      ((a :: l) ++ (missingVals (a :: l)).map placeholderRec)
    exact hp.imp (fun h => of_decide_eq_true h)

theorem create_modulation_plan_sorted_desc_witness :
    (dataC1 ≠ [] ∧ allNum dataC1 = true) ∧
    (∃ spec, create_modulation_plan trivOps dataC1 "semitones" true "Modulation plan"
        none none none = some spec ∧
      spec.records.Perm (dataC1 ++ (missingVals dataC1).map placeholderRec) ∧
      spec.records.Sorted (fun r1 r2 => taskInt r2.task ≤ taskInt r1.task)) :=
  ⟨⟨by decide, by decide⟩,
    create_modulation_plan_sorted_desc trivOps dataC1 "semitones" "Modulation plan" none
      (Or.inl rfl) (by decide) (by decide)⟩
